import Mathlib

/-!
Shallow embedding of the core of `animal_guesser.py` (class `AnimalGuesserML`):
the candidate filter, entropy-based question selector, guess scorer, and
learning updater. Feature values and scores are modelled as rationals;
the entropy computation (Python `math.log2`) is modelled over the reals.
Python dicts (`features`, `answers`) are modelled as association lists in
insertion order, with lookup of a missing key defaulting as the source does.
-/

namespace AnimalGuesser

/-- An animal: a name and a sparse feature mapping (`{"name": ..., "features": {...}}`). -/
structure Entity where
  name : String
  features : List (String × ℚ)
deriving DecidableEq

/-- A question: text, the feature it asks about, and a static weight. -/
structure Question where
  text : String
  feature : String
  weight : ℚ
deriving DecidableEq

/-- One game session's accumulated answers: feature key to answer (a Python int). -/
abbrev AnswerSet := List (String × ℤ)

/-- ASCII lowercasing of one character, as Python's `str.lower` acts on the
ASCII names and descriptions this program handles. -/
def asciiLowerChar (c : Char) : Char :=
  if 'A' ≤ c ∧ c ≤ 'Z' then Char.ofNat (c.toNat + 32) else c

/-- Python's `str.lower()` on the strings this program handles. -/
def pyLower (s : String) : String := String.mk (s.data.map asciiLowerChar)

/-- Python's `min` on two values: the first when it is not greater. -/
def qmin (a b : ℚ) : ℚ := if a ≤ b then a else b

/-- Python's `max` on two values: the second when the first is not greater. -/
def qmax (a b : ℚ) : ℚ := if a ≤ b then b else a

/-- `animal['features'].get(feature, 0)`: feature lookup defaulting to 0. -/
def getFeature (features : List (String × ℚ)) (f : String) : ℚ :=
  match features.lookup f with
  | some v => v
  | none => 0

/-- The per-pair test of the inner loop of `filter_candidates`: an entity is
kept by the pair `(feature, answer)` unless `answer == 1` and its value is
`< 0.5`, or `answer == 0` and its value is `> 0.5`. -/
def consistentWith (features : List (String × ℚ)) (fa : String × ℤ) : Bool :=
  let v := getFeature features fa.1
  if fa.2 = 1 ∧ v < mkRat 1 2 then false
  else if fa.2 = 0 ∧ v > mkRat 1 2 then false
  else true

/-- `filter_candidates`: keep the animals consistent with every answered pair. -/
def filter_candidates (animals : List Entity) (answers : AnswerSet) : List Entity :=
  animals.filter (fun a => answers.all (consistentWith a.features))

/-- `yes_count` of `calculate_entropy`: candidates whose feature value is `> 0.5`. -/
def yesCount (candidates : List Entity) (feature : String) : ℕ :=
  candidates.countP (fun a => decide (getFeature a.features feature > mkRat 1 2))

/-- `calculate_entropy`: 0 when at most one candidate or the yes/no split is
degenerate, else the binary Shannon entropy (base-2 logs) of the split. -/
noncomputable def calculate_entropy (candidates : List Entity) (feature : String) : ℝ :=
  if candidates.length ≤ 1 then 0
  else if yesCount candidates feature = 0 ∨ yesCount candidates feature = candidates.length then 0
  else
    let yes_ratio : ℝ := (yesCount candidates feature : ℝ) / (candidates.length : ℝ)
    let no_ratio : ℝ := 1 - yes_ratio
    let entropy : ℝ := -(yes_ratio * Real.logb 2 yes_ratio + no_ratio * Real.logb 2 no_ratio)
    entropy

/-- `weighted_gain` of `get_best_question`: entropy times the question's weight. -/
noncomputable def weightedGain (candidates : List Entity) (q : Question) : ℝ :=
  calculate_entropy candidates q.feature * (q.weight : ℝ)

/-- The accumulator loop shared by `get_best_question` and the scoring loop of
`make_guess`: scan left to right, replacing the best-so-far exactly when the
current value is strictly greater. -/
def argmaxFold {α β : Type*} [LinearOrder β] (f : α → β) (l : List α)
    (acc : Option α × β) : Option α × β :=
  l.foldl (fun acc x => if f x > acc.2 then (some x, f x) else acc) acc

/-- `get_best_question`: among the questions whose feature was not asked yet,
the first one whose weighted gain strictly exceeds all earlier ones and 0. -/
noncomputable def get_best_question (questions : List Question)
    (candidates : List Entity) (asked_features : List String) : Option Question :=
  let available := questions.filter (fun q => !asked_features.contains q.feature)
  if available.isEmpty then none
  else (argmaxFold (weightedGain candidates) available (none, 0)).1

/-- The `score` loop of `make_guess`: answered features where the candidate's
value agrees with the answer under the 0.5 threshold. -/
def score (features : List (String × ℚ)) (answers : AnswerSet) : ℕ :=
  answers.countP (fun fa =>
    decide ((fa.2 = 1 ∧ getFeature features fa.1 > mkRat 1 2) ∨
            (fa.2 = 0 ∧ getFeature features fa.1 < mkRat 1 2)))

/-- `normalized_score`: `score / total_features if total_features > 0 else 0`. -/
def normalizedScore (features : List (String × ℚ)) (answers : AnswerSet) : ℚ :=
  if 0 < answers.length then (score features answers : ℚ) / (answers.length : ℚ) else 0

/-- The candidate-scoring loop of `make_guess`, starting from
`best_animal = None`, `best_score = 0`. -/
def bestCandidate (candidates : List Entity) (answers : AnswerSet) : Option Entity × ℚ :=
  argmaxFold (fun a => normalizedScore a.features answers) candidates (none, 0)

/-- `make_guess`: filter, handle the empty and singleton cases, otherwise score
the candidates and clamp the confidence. -/
def make_guess (animals : List Entity) (answers : AnswerSet) : Option Entity × ℚ :=
  let candidates := filter_candidates animals answers
  if candidates.isEmpty then (none, 0)
  else if candidates.length = 1 then (candidates.head?, 95/100)
  else
    let best := bestCandidate candidates answers
    (best.1, qmin (95/100) (qmax (1/10) (best.2 * (1 - ((candidates.length : ℚ) - 1) * (1/10)))))

/-- Python dict assignment `features[k] = v`: overwrite in place when the key
exists, otherwise append it. -/
def setFeature (features : List (String × ℚ)) (k : String) (v : ℚ) : List (String × ℚ) :=
  if features.any (fun p => p.1 == k) then
    features.map (fun p => if p.1 == k then (p.1, v) else p)
  else features ++ [(k, v)]

/-- The answer-merging loop of `learn_from_game`: write each answered value
onto the entity's features, in answer order. -/
def applyAnswers (features : List (String × ℚ)) (answers : AnswerSet) : List (String × ℚ) :=
  answers.foldl (fun fs fa => setFeature fs fa.1 (fa.2 : ℚ)) features

/-- Whether `needle` is a prefix of `hay` (character lists). -/
def startsWithChars : List Char → List Char → Bool
  | [], _ => true
  | _ :: _, [] => false
  | c :: cs, d :: ds => c == d && startsWithChars cs ds

/-- Python's substring test `needle in hay` on character lists. -/
def containsSub (needle : List Char) : List Char → Bool
  | [] => startsWithChars needle []
  | c :: rest => startsWithChars needle (c :: rest) || containsSub needle rest

/-- `keyword in desc_lower` for strings. -/
def keywordIn (keyword descLower : String) : Bool :=
  containsSub keyword.toList descLower.toList

/-- The fixed `feature_keywords` table of `extract_features_from_description`. -/
def feature_keywords : List (String × List String) :=
  [("large", ["large", "big", "huge", "massive", "giant"]),
   ("small", ["small", "tiny", "little", "miniature"]),
   ("aquatic", ["water", "ocean", "sea", "swimming", "aquatic"]),
   ("flies", ["fly", "flying", "wings", "air", "flight"]),
   ("domestic", ["pet", "domestic", "house", "tame"]),
   ("wild", ["wild", "jungle", "forest", "safari"]),
   ("carnivore", ["meat", "carnivore", "predator", "hunter"]),
   ("herbivore", ["plants", "grass", "herbivore", "vegetarian"]),
   ("fur", ["fur", "furry", "hairy"]),
   ("feathers", ["feather", "feathered"]),
   ("scales", ["scale", "scaled", "scaly"])]

/-- `extract_features_from_description`: for each table row with a keyword
occurring in the lowercased description, set that feature to 1. -/
def extract_features_from_description (animal : Entity) (description : String) : Entity :=
  let descLower := pyLower description
  feature_keywords.foldl (fun a fk =>
    if fk.2.any (fun kw => keywordIn kw descLower) then
      { a with features := setFeature a.features fk.1 1 }
    else a) animal

/-- The mutation `learn_from_game` performs on the found-or-created entity:
merge the answers, then extract from the description when it is non-empty. -/
def updateLearned (e : Entity) (answers : AnswerSet) (description : String) : Entity :=
  let e1 : Entity := { e with features := applyAnswers e.features answers }
  if description ≠ "" then extract_features_from_description e1 description else e1

/-- `learn_from_game` on the animal list: update the first case-insensitive
name match in place; when none matches, append a fresh entity and update it. -/
def learn_from_game : List Entity → String → AnswerSet → String → List Entity
  | [], actual, answers, description =>
      [updateLearned { name := actual, features := [] } answers description]
  | a :: rest, actual, answers, description =>
      if pyLower a.name = pyLower actual then
        updateLearned a answers description :: rest
      else
        a :: learn_from_game rest actual answers description

/-- Two featureless entities, used as concrete inputs. -/
def entA : Entity := { name := "A", features := [] }

def entB : Entity := { name := "B", features := [] }

/-- A one-feature entity mirroring a seed animal, used as a concrete input. -/
def entDog : Entity := { name := "Dog", features := [("mammal", 1)] }

/-- A question mirroring the first seed question, used as a concrete input. -/
def qMammal : Question := { text := "Is it a mammal?", feature := "mammal", weight := mkRat 8 10 }

/-! ### Bridge lemmas for the rational constants and Python `min`/`max` -/

theorem mkRat_half : mkRat 1 2 = 1/2 := by norm_num [mkRat]

theorem qmin_le_left (a b : ℚ) : qmin a b ≤ a := by
  rcases le_or_lt a b with h | h
  · simp [qmin, h]
  · simp [qmin, not_le.mpr h, h.le]

theorem le_qmax_left (a b : ℚ) : a ≤ qmax a b := by
  rcases le_or_lt a b with h | h
  · simp [qmax, h]
  · simp [qmax, not_le.mpr h]

theorem le_qmin {a b c : ℚ} (h1 : c ≤ a) (h2 : c ≤ b) : c ≤ qmin a b := by
  unfold qmin; split <;> assumption

/-! ### The strict-improvement scan -/

theorem argmaxFold_nil {α β : Type*} [LinearOrder β] (f : α → β) (acc : Option α × β) :
    argmaxFold f [] acc = acc := rfl

theorem argmaxFold_cons {α β : Type*} [LinearOrder β] (f : α → β) (x : α) (l : List α)
    (acc : Option α × β) :
    argmaxFold f (x :: l) acc =
      argmaxFold f l (if f x > acc.2 then (some x, f x) else acc) := rfl

theorem le_argmaxFold_snd {α β : Type*} [LinearOrder β] (f : α → β) (l : List α)
    (acc : Option α × β) : acc.2 ≤ (argmaxFold f l acc).2 := by
  induction l generalizing acc with
  | nil => simp [argmaxFold_nil]
  | cons x l ih =>
    rw [argmaxFold_cons]
    rcases le_or_lt (f x) acc.2 with h | h
    · rw [if_neg (not_lt.mpr h)]; exact ih acc
    · rw [if_pos h]
      exact le_trans h.le (ih (some x, f x))

theorem argmaxFold_forall_le {α β : Type*} [LinearOrder β] (f : α → β) (l : List α)
    (acc : Option α × β) : ∀ x ∈ l, f x ≤ (argmaxFold f l acc).2 := by
  induction l generalizing acc with
  | nil => intro x hx; cases hx
  | cons y l ih =>
    intro x hx
    rw [argmaxFold_cons]
    rcases List.mem_cons.mp hx with rfl | hmem
    · rcases le_or_lt (f x) acc.2 with h | h
      · rw [if_neg (not_lt.mpr h)]
        exact le_trans h (le_argmaxFold_snd f l acc)
      · rw [if_pos h]
        exact le_trans (le_refl (f x)) (le_argmaxFold_snd f l (some x, f x))
    · split
      · exact ih (some y, f y) x hmem
      · exact ih acc x hmem

theorem argmaxFold_eq_self {α β : Type*} [LinearOrder β] (f : α → β) (l : List α)
    (acc : Option α × β) (h : ∀ x ∈ l, f x ≤ acc.2) : argmaxFold f l acc = acc := by
  induction l generalizing acc with
  | nil => rfl
  | cons x l ih =>
    rw [argmaxFold_cons, if_neg (not_lt.mpr (h x (List.mem_cons_self x l)))]
    exact ih acc (fun y hy => h y (List.mem_cons_of_mem x hy))

theorem argmaxFold_spec {α β : Type*} [LinearOrder β] (f : α → β) (l : List α)
    (acc : Option α × β) :
    argmaxFold f l acc = acc ∨
      ∃ l1 q l2, l = l1 ++ q :: l2 ∧ argmaxFold f l acc = (some q, f q) ∧ acc.2 < f q ∧
        (∀ y ∈ l1, f y < f q) ∧ (∀ y ∈ l2, f y ≤ f q) := by
  induction l generalizing acc with
  | nil => exact Or.inl rfl
  | cons x l ih =>
    rw [argmaxFold_cons]
    rcases le_or_lt (f x) acc.2 with h | h
    · rw [if_neg (not_lt.mpr h)]
      rcases ih acc with heq | ⟨l1, q, l2, hl, heq, hgt, h1, h2⟩
      · exact Or.inl heq
      · refine Or.inr ⟨x :: l1, q, l2, by rw [hl, List.cons_append], heq, hgt, ?_, h2⟩
        intro y hy
        rcases List.mem_cons.mp hy with rfl | hy
        · exact lt_of_le_of_lt h hgt
        · exact h1 y hy
    · rw [if_pos h]
      right
      rcases ih (some x, f x) with heq | ⟨l1, q, l2, hl, heq, hgt, h1, h2⟩
      · refine ⟨[], x, l, rfl, by rw [heq], h, by simp, ?_⟩
        intro y hy
        have hle := argmaxFold_forall_le f l (some x, f x) y hy
        rw [heq] at hle; exact hle
      · refine ⟨x :: l1, q, l2, by rw [hl, List.cons_append], heq, lt_trans h hgt, ?_, h2⟩
        intro y hy
        rcases List.mem_cons.mp hy with rfl | hy
        · exact hgt
        · exact h1 y hy

/-! ### The candidate filter -/

theorem consistentWith_iff (fs : List (String × ℚ)) (fa : String × ℤ) :
    consistentWith fs fa = true ↔
      ¬(fa.2 = 1 ∧ getFeature fs fa.1 < 1/2) ∧ ¬(fa.2 = 0 ∧ getFeature fs fa.1 > 1/2) := by
  simp only [consistentWith, mkRat_half]
  split_ifs with h1 h2
  · exact iff_of_false (by simp) (fun hc => hc.1 h1)
  · exact iff_of_false (by simp) (fun hc => hc.2 h2)
  · exact iff_of_true rfl ⟨h1, h2⟩

theorem mem_filter_candidates (animals : List Entity) (answers : AnswerSet) (e : Entity) :
    e ∈ filter_candidates animals answers ↔
      e ∈ animals ∧ ∀ fa ∈ answers, consistentWith e.features fa = true := by
  simp [filter_candidates, List.mem_filter, List.all_eq_true]


/-! ### Case analysis of `make_guess` -/

theorem make_guess_of_empty (animals : List Entity) (answers : AnswerSet)
    (h : filter_candidates animals answers = []) :
    make_guess animals answers = (none, 0) := by
  simp [make_guess, h]

theorem make_guess_of_single (animals : List Entity) (answers : AnswerSet) (e : Entity)
    (h : filter_candidates animals answers = [e]) :
    make_guess animals answers = (some e, 95/100) := by
  simp [make_guess, h]

theorem make_guess_of_multi (animals : List Entity) (answers : AnswerSet)
    (x y : Entity) (rest : List Entity)
    (h : filter_candidates animals answers = x :: y :: rest) :
    make_guess animals answers =
      ((bestCandidate (x :: y :: rest) answers).1,
        qmin (95/100) (qmax (1/10)
          ((bestCandidate (x :: y :: rest) answers).2 *
            (1 - (((x :: y :: rest).length : ℚ) - 1) * (1/10))))) := by
  simp [make_guess, h]

/-- C2: `filter_candidates` keeps exactly the entities that survive every
`(feature, answer)` pair: excluded iff `answer == 1` with value `< 0.5` or
`answer == 0` with value `> 0.5`; a missing feature counts as 0, and a value
of exactly `0.5` is never excluded by either answer. -/
theorem filter_candidates_rule (animals : List Entity) (answers : AnswerSet) (e : Entity) :
    (e ∈ filter_candidates animals answers ↔
      e ∈ animals ∧ ∀ fa ∈ answers,
        ¬(fa.2 = 1 ∧ getFeature e.features fa.1 < 1/2) ∧
        ¬(fa.2 = 0 ∧ getFeature e.features fa.1 > 1/2)) ∧
    (∀ f, e.features.lookup f = none → getFeature e.features f = 0) ∧
    (∀ fa ∈ answers, getFeature e.features fa.1 = 1/2 → consistentWith e.features fa = true) := by
  refine ⟨?_, ?_, ?_⟩
  · rw [mem_filter_candidates]
    constructor
    · rintro ⟨hmem, hall⟩
      exact ⟨hmem, fun fa hfa => (consistentWith_iff e.features fa).mp (hall fa hfa)⟩
    · rintro ⟨hmem, hall⟩
      exact ⟨hmem, fun fa hfa => (consistentWith_iff e.features fa).mpr (hall fa hfa)⟩
  · intro f hf
    simp [getFeature, hf]
  · intro fa _ hv
    rw [consistentWith_iff]
    constructor
    · rintro ⟨-, hlt⟩
      rw [hv] at hlt
      exact absurd hlt (lt_irrefl _)
    · rintro ⟨-, hgt⟩
      rw [hv] at hgt
      exact absurd hgt (lt_irrefl _)

/-- C2 witness: the rule evaluated at a concrete entity set and answer set. -/
theorem filter_candidates_rule_witness :
    (entDog ∈ filter_candidates [entA, entDog] [("mammal", 1)] ↔
      entDog ∈ [entA, entDog] ∧ ∀ fa ∈ ([("mammal", 1)] : AnswerSet),
        ¬(fa.2 = 1 ∧ getFeature entDog.features fa.1 < 1/2) ∧
        ¬(fa.2 = 0 ∧ getFeature entDog.features fa.1 > 1/2)) ∧
    (∀ f, entDog.features.lookup f = none → getFeature entDog.features f = 0) ∧
    (∀ fa ∈ ([("mammal", 1)] : AnswerSet), getFeature entDog.features fa.1 = 1/2 →
      consistentWith entDog.features fa = true) :=
  filter_candidates_rule [entA, entDog] [("mammal", 1)] entDog

/-- C7: filtering with a superset of answers yields a subset of the candidates,
both filtrations are subsets of the entity set, and the candidate count never
increases when answers are added. -/
theorem filter_candidates_monotone (animals : List Entity) (a1 a2 : AnswerSet)
    (h : ∀ fa ∈ a1, fa ∈ a2) :
    (∀ e ∈ filter_candidates animals a2, e ∈ filter_candidates animals a1) ∧
    (∀ e ∈ filter_candidates animals a1, e ∈ animals) ∧
    (∀ e ∈ filter_candidates animals a2, e ∈ animals) ∧
    (filter_candidates animals a2).length ≤ (filter_candidates animals a1).length := by
  refine ⟨?_, ?_, ?_, ?_⟩
  · intro e he
    rw [mem_filter_candidates] at he ⊢
    exact ⟨he.1, fun fa hfa => he.2 fa (h fa hfa)⟩
  · intro e he
    exact ((mem_filter_candidates animals a1 e).mp he).1
  · intro e he
    exact ((mem_filter_candidates animals a2 e).mp he).1
  · unfold filter_candidates
    rw [← List.countP_eq_length_filter, ← List.countP_eq_length_filter]
    refine List.countP_mono_left ?_
    intro a hmem ha2
    rw [List.all_eq_true] at ha2 ⊢
    exact fun fa hfa => ha2 fa (h fa hfa)

/-- C7 witness: monotonicity at a concrete entity set and answer extension. -/
theorem filter_candidates_monotone_witness :
    (∀ e ∈ filter_candidates [entA, entDog] [("mammal", 1), ("large", 1)],
        e ∈ filter_candidates [entA, entDog] [("mammal", 1)]) ∧
    (∀ e ∈ filter_candidates [entA, entDog] [("mammal", 1)], e ∈ [entA, entDog]) ∧
    (∀ e ∈ filter_candidates [entA, entDog] [("mammal", 1), ("large", 1)], e ∈ [entA, entDog]) ∧
    (filter_candidates [entA, entDog] [("mammal", 1), ("large", 1)]).length ≤
      (filter_candidates [entA, entDog] [("mammal", 1)]).length :=
  filter_candidates_monotone [entA, entDog] [("mammal", 1)] [("mammal", 1), ("large", 1)]
    (by decide)

/-- C5: when filtering leaves no candidate, `make_guess` returns `(none, 0)`;
when it leaves exactly one, it returns that entity with confidence 0.95. -/
theorem make_guess_empty_or_single (animals : List Entity) (answers : AnswerSet) :
    (filter_candidates animals answers = [] → make_guess animals answers = (none, 0)) ∧
    ∀ e, filter_candidates animals answers = [e] →
      make_guess animals answers = (some e, 95/100) :=
  ⟨make_guess_of_empty animals answers,
   fun e he => make_guess_of_single animals answers e he⟩

/-- C5 witness: both branches evaluated at concrete inputs. -/
theorem make_guess_empty_or_single_witness :
    filter_candidates [entDog] [("mammal", 1)] = [entDog] ∧
    make_guess [entDog] [("mammal", 1)] = (some entDog, 95/100) ∧
    filter_candidates [entDog] [("mammal", 0)] = [] ∧
    make_guess [entDog] [("mammal", 0)] = (none, 0) :=
  ⟨by decide,
   (make_guess_empty_or_single [entDog] [("mammal", 1)]).2 entDog (by decide),
   by decide,
   (make_guess_empty_or_single [entDog] [("mammal", 0)]).1 (by decide)⟩


/-! ### Guessing with no answered features -/

/-- C1 counterexample: with two candidates and no answered features the scoring
loop never updates `best_animal` (its initial `None` survives, since `0 > 0` is
false), so `make_guess` returns `none` with confidence 0.1 — not the first
entity in stored order. -/
theorem make_guess_no_answers_cex :
    make_guess [entA, entB] [] = (none, 1/10) ∧
    (make_guess [entA, entB] []).1 ≠ some entA := by
  have h : make_guess [entA, entB] [] = (none, 1/10) := by
    norm_num [make_guess, filter_candidates, bestCandidate, argmaxFold, normalizedScore,
      qmin, qmax, entA, entB]
  refine ⟨h, ?_⟩
  rw [h]
  simp

/-- C1 (amended): for every entity set with at least 2 entities and the empty
answer set, `make_guess` returns no entity (`none`) with confidence exactly 0.1. -/
theorem make_guess_no_answers (animals : List Entity) (h : 2 ≤ animals.length) :
    make_guess animals [] = (none, 1/10) := by
  match animals, h with
  | x :: y :: rest, _ =>
    have hfilter : filter_candidates (x :: y :: rest) [] = x :: y :: rest := by
      simp [filter_candidates]
    have hbest : bestCandidate (x :: y :: rest) [] = (none, 0) := by
      refine argmaxFold_eq_self _ _ _ ?_
      intro a ha
      simp [normalizedScore]
    rw [make_guess_of_multi (x :: y :: rest) [] x y rest hfilter, hbest]
    norm_num [qmin, qmax]

/-- C1 witness: the amended claim at a concrete two-entity set. -/
theorem make_guess_no_answers_witness :
    2 ≤ ([entA, entB] : List Entity).length ∧ make_guess [entA, entB] [] = (none, 1/10) :=
  ⟨by decide, make_guess_no_answers [entA, entB] (by decide)⟩

/-! ### Confidence clamping -/

/-- C6 counterexample: when filtering leaves no candidate, `make_guess` returns
confidence 0, which lies below the claimed interval `[0.1, 0.95]`. -/
theorem confidence_clamped_cex :
    make_guess [entDog] [("mammal", 0)] = (none, 0) ∧
    ¬(1/10 ≤ (make_guess [entDog] [("mammal", 0)]).2) := by
  have h : make_guess [entDog] [("mammal", 0)] = (none, 0) := by
    norm_num [make_guess, filter_candidates, consistentWith, getFeature, entDog]
  refine ⟨h, ?_⟩
  rw [h]
  norm_num

/-- C6 (amended): whenever filtering leaves at least one candidate, the
confidence returned by `make_guess` lies in `[0.1, 0.95]` (the raw score is
clamped); with no candidates the returned confidence is 0. -/
theorem confidence_clamped (animals : List Entity) (answers : AnswerSet)
    (h : filter_candidates animals answers ≠ []) :
    1/10 ≤ (make_guess animals answers).2 ∧ (make_guess animals answers).2 ≤ 95/100 := by
  cases hf : filter_candidates animals answers with
  | nil => exact absurd hf h
  | cons x t =>
    cases t with
    | nil =>
      rw [make_guess_of_single animals answers x hf]
      norm_num
    | cons y rest =>
      rw [make_guess_of_multi animals answers x y rest hf]
      exact ⟨le_qmin (by norm_num) (le_qmax_left _ _), qmin_le_left _ _⟩

/-- C6 witness: the clamp evaluated at a concrete entity set. -/
theorem confidence_clamped_witness :
    filter_candidates [entA, entB] [] ≠ [] ∧
    (1/10 ≤ (make_guess [entA, entB] []).2 ∧ (make_guess [entA, entB] []).2 ≤ 95/100) :=
  ⟨by decide, confidence_clamped [entA, entB] [] (by decide)⟩


/-! ### Feature-map updates -/

theorem getFeature_cons (p : String × ℚ) (rest : List (String × ℚ)) (k : String) :
    getFeature (p :: rest) k = if k = p.1 then p.2 else getFeature rest k := by
  unfold getFeature
  rw [List.lookup_cons]
  by_cases h : k = p.1
  · simp [h]
  · simp [h, beq_eq_false_iff_ne.mpr h]

theorem setFeature_cons_ne (p : String × ℚ) (t : List (String × ℚ)) (k : String) (v : ℚ)
    (h : p.1 ≠ k) : setFeature (p :: t) k v = p :: setFeature t k v := by
  by_cases ht : t.any (fun p => p.1 == k)
  · simp [setFeature, List.any_cons, beq_eq_false_iff_ne.mpr h, ht, h]
  · simp [setFeature, List.any_cons, beq_eq_false_iff_ne.mpr h, ht, h]

theorem setFeature_cons_eq (p : String × ℚ) (t : List (String × ℚ)) (k : String) (v : ℚ)
    (h : p.1 = k) :
    setFeature (p :: t) k v =
      (p.1, v) :: t.map (fun q => if q.1 == k then (q.1, v) else q) := by
  simp [setFeature, List.any_cons, beq_iff_eq.mpr h, h]

theorem getFeature_map_replace (t : List (String × ℚ)) (k k' : String) (v : ℚ)
    (h : k' ≠ k) :
    getFeature (t.map (fun q => if q.1 == k then (q.1, v) else q)) k' = getFeature t k' := by
  induction t with
  | nil => rfl
  | cons q t ih =>
    rw [List.map_cons]
    by_cases hq : (q.1 == k) = true
    · rw [if_pos hq, getFeature_cons, getFeature_cons]
      have hne : k' ≠ q.1 := by
        rw [beq_iff_eq] at hq
        rw [hq]; exact h
      rw [if_neg hne, if_neg hne]
      exact ih
    · rw [if_neg hq, getFeature_cons, getFeature_cons]
      by_cases hk : k' = q.1
      · rw [if_pos hk, if_pos hk]
      · rw [if_neg hk, if_neg hk]; exact ih

theorem getFeature_setFeature_self (fs : List (String × ℚ)) (k : String) (v : ℚ) :
    getFeature (setFeature fs k v) k = v := by
  induction fs with
  | nil =>
    rw [show setFeature [] k v = [(k, v)] from rfl, getFeature_cons]
    simp
  | cons p t ih =>
    by_cases hp : p.1 = k
    · rw [setFeature_cons_eq p t k v hp, getFeature_cons, if_pos hp.symm]
    · rw [setFeature_cons_ne p t k v hp, getFeature_cons, if_neg (fun hh => hp hh.symm)]
      exact ih

theorem getFeature_setFeature_ne (fs : List (String × ℚ)) (k k' : String) (v : ℚ)
    (h : k' ≠ k) : getFeature (setFeature fs k v) k' = getFeature fs k' := by
  induction fs with
  | nil =>
    rw [show setFeature [] k v = [(k, v)] from rfl, getFeature_cons, if_neg h]
  | cons p t ih =>
    by_cases hp : p.1 = k
    · rw [setFeature_cons_eq p t k v hp, getFeature_cons, getFeature_cons]
      by_cases hk : k' = p.1
      · exact absurd (hk.trans hp) h
      · rw [if_neg hk, if_neg hk]
        exact getFeature_map_replace t k k' v h
    · rw [setFeature_cons_ne p t k v hp, getFeature_cons, getFeature_cons]
      by_cases hk : k' = p.1
      · rw [if_pos hk, if_pos hk]
      · rw [if_neg hk, if_neg hk]; exact ih

/-! ### Merging an answer set into a feature map -/

theorem applyAnswers_nil (fs : List (String × ℚ)) : applyAnswers fs [] = fs := rfl

theorem applyAnswers_cons (fs : List (String × ℚ)) (fa : String × ℤ) (rest : AnswerSet) :
    applyAnswers fs (fa :: rest) = applyAnswers (setFeature fs fa.1 (fa.2 : ℚ)) rest := rfl

theorem getFeature_applyAnswers_not_mem (fs : List (String × ℚ)) (answers : AnswerSet)
    (f : String) (h : f ∉ answers.map Prod.fst) :
    getFeature (applyAnswers fs answers) f = getFeature fs f := by
  induction answers generalizing fs with
  | nil => rfl
  | cons fa rest ih =>
    rw [applyAnswers_cons]
    have hne : f ≠ fa.1 := fun hf => h (by simp [hf])
    rw [ih _ (fun hm => h (by simp [hm]))]
    exact getFeature_setFeature_ne fs fa.1 f (fa.2 : ℚ) hne

theorem getFeature_applyAnswers_mem (fs : List (String × ℚ)) (answers : AnswerSet)
    (f : String) (a : ℤ) (hnodup : (answers.map Prod.fst).Nodup)
    (hmem : (f, a) ∈ answers) :
    getFeature (applyAnswers fs answers) f = (a : ℚ) := by
  induction answers generalizing fs with
  | nil => cases hmem
  | cons fa rest ih =>
    rw [applyAnswers_cons]
    rcases List.mem_cons.mp hmem with heq | hmem2
    · have hfa1 : fa.1 = f := by rw [← heq]
      have hfa2 : fa.2 = a := by rw [← heq]
      have hnot : f ∉ rest.map Prod.fst := by
        rw [List.map_cons, List.nodup_cons] at hnodup
        rw [← hfa1]
        exact hnodup.1
      rw [getFeature_applyAnswers_not_mem _ _ _ hnot, hfa1, hfa2]
      exact getFeature_setFeature_self fs f (a : ℚ)
    · rw [List.map_cons, List.nodup_cons] at hnodup
      exact ih _ hnodup.2 hmem2

/-! ### Name preservation of the learning updater -/

theorem foldl_extract_name (tbl : List (String × List String)) (d : String) (a : Entity) :
    (List.foldl (fun en fk =>
      if fk.2.any (fun kw => keywordIn kw d) then
        { en with features := setFeature en.features fk.1 1 }
      else en) a tbl).name = a.name := by
  induction tbl generalizing a with
  | nil => rfl
  | cons fk rest ih =>
    rw [List.foldl_cons]
    split
    · exact ih _
    · exact ih _

theorem extract_name (a : Entity) (d : String) :
    (extract_features_from_description a d).name = a.name :=
  foldl_extract_name feature_keywords (pyLower d) a

theorem updateLearned_name (e : Entity) (answers : AnswerSet) (d : String) :
    (updateLearned e answers d).name = e.name := by
  unfold updateLearned
  split
  · rw [extract_name]
  · rfl

theorem updateLearned_empty_desc (e : Entity) (answers : AnswerSet) :
    updateLearned e answers "" = { e with features := applyAnswers e.features answers } := by
  simp [updateLearned]

/-! ### The `learn_from_game` list transformation -/

theorem learn_from_game_length_ge (animals : List Entity) (actual : String)
    (answers : AnswerSet) (d : String) :
    animals.length ≤ (learn_from_game animals actual answers d).length := by
  induction animals with
  | nil => simp [learn_from_game]
  | cons a rest ih =>
    simp only [learn_from_game]
    split
    · simp
    · simpa using Nat.succ_le_succ ih

theorem learn_from_game_get_ne (animals : List Entity) (actual : String)
    (answers : AnswerSet) (d : String) :
    ∀ (i : ℕ) (e : Entity), animals[i]? = some e → pyLower e.name ≠ pyLower actual →
      (learn_from_game animals actual answers d)[i]? = some e := by
  induction animals with
  | nil => intro i e he _; simp at he
  | cons a rest ih =>
    intro i e he hne
    simp only [learn_from_game]
    split
    case isTrue hm =>
      cases i with
      | zero =>
        simp only [List.getElem?_cons_zero, Option.some.injEq] at he
        exact absurd (he ▸ hm) hne
      | succ n => simpa using he
    case isFalse hm =>
      cases i with
      | zero => simpa using he
      | succ n =>
        simp only [List.getElem?_cons_succ] at he ⊢
        exact ih n e he hne

theorem learn_from_game_not_found (animals : List Entity) (actual : String)
    (answers : AnswerSet) (d : String)
    (h : ∀ a ∈ animals, pyLower a.name ≠ pyLower actual) :
    learn_from_game animals actual answers d =
      animals ++ [updateLearned { name := actual, features := [] } answers d] := by
  induction animals with
  | nil => rfl
  | cons a rest ih =>
    simp only [learn_from_game]
    rw [if_neg (h a (List.mem_cons_self a rest)),
      ih (fun b hb => h b (List.mem_cons_of_mem a hb))]
    rfl

theorem learn_from_game_found_length (animals : List Entity) (actual : String)
    (answers : AnswerSet) (d : String)
    (h : ∃ a ∈ animals, pyLower a.name = pyLower actual) :
    (learn_from_game animals actual answers d).length = animals.length := by
  induction animals with
  | nil => simp at h
  | cons a rest ih =>
    simp only [learn_from_game]
    split
    · simp
    case isFalse hm =>
      obtain ⟨b, hb, hbeq⟩ := h
      rcases List.mem_cons.mp hb with rfl | hb2
      · exact absurd hbeq hm
      · simp [ih ⟨b, hb2, hbeq⟩]

theorem learn_from_game_mem_updated (animals : List Entity) (actual : String)
    (answers : AnswerSet) (d : String) :
    ∃ e0, updateLearned e0 answers d ∈ learn_from_game animals actual answers d ∧
      pyLower e0.name = pyLower actual := by
  induction animals with
  | nil => exact ⟨{ name := actual, features := [] }, by simp [learn_from_game], rfl⟩
  | cons a rest ih =>
    simp only [learn_from_game]
    split
    case isTrue hm => exact ⟨a, List.mem_cons_self _ _, hm⟩
    case isFalse hm =>
      obtain ⟨e0, hmem, heq⟩ := ih
      exact ⟨e0, List.mem_cons_of_mem a hmem, heq⟩

/-- C8: `learn_from_game` never removes entities and never changes an entity
whose lowercased name differs from the given name; when no entity matches
case-insensitively, exactly one entity carrying the given name is appended;
when one matches, the entity count is unchanged (no duplicate). -/
theorem learn_from_game_frame (animals : List Entity) (actual : String)
    (answers : AnswerSet) (description : String) :
    animals.length ≤ (learn_from_game animals actual answers description).length ∧
    (∀ (i : ℕ) (e : Entity), animals[i]? = some e → pyLower e.name ≠ pyLower actual →
      (learn_from_game animals actual answers description)[i]? = some e) ∧
    ((∀ a ∈ animals, pyLower a.name ≠ pyLower actual) →
      ∃ e, e.name = actual ∧
        learn_from_game animals actual answers description = animals ++ [e]) ∧
    ((∃ a ∈ animals, pyLower a.name = pyLower actual) →
      (learn_from_game animals actual answers description).length = animals.length) := by
  refine ⟨learn_from_game_length_ge animals actual answers description,
    learn_from_game_get_ne animals actual answers description, ?_,
    learn_from_game_found_length animals actual answers description⟩
  intro h
  exact ⟨updateLearned { name := actual, features := [] } answers description,
    updateLearned_name _ answers description,
    learn_from_game_not_found animals actual answers description h⟩

/-- C8 witness: the frame conditions at a concrete entity list and name. -/
theorem learn_from_game_frame_witness :
    ([entA] : List Entity).length ≤ (learn_from_game [entA] "B" [] "").length ∧
    (∀ (i : ℕ) (e : Entity), ([entA] : List Entity)[i]? = some e → pyLower e.name ≠ pyLower "B" →
      (learn_from_game [entA] "B" [] "")[i]? = some e) ∧
    ((∀ a ∈ ([entA] : List Entity), pyLower a.name ≠ pyLower "B") →
      ∃ e, e.name = "B" ∧ learn_from_game [entA] "B" [] "" = [entA] ++ [e]) ∧
    ((∃ a ∈ ([entA] : List Entity), pyLower a.name = pyLower "B") →
      (learn_from_game [entA] "B" [] "").length = ([entA] : List Entity).length) :=
  learn_from_game_frame [entA] "B" [] ""


/-! ### Keyword extraction from a concrete description -/

theorem extract_ocean_huge_eq (e : Entity) :
    extract_features_from_description e "It lives in the ocean and is huge" =
      { e with features := setFeature (setFeature e.features "large" 1) "aquatic" 1 } := by
  rfl

/-- C9: extracting from the description "It lives in the ocean and is huge"
sets `aquatic` and `large` to 1 (keyword matches "ocean" and "huge") and leaves
every other feature value unchanged (no existing feature is unset). -/
theorem extract_ocean_huge (e : Entity) :
    getFeature (extract_features_from_description e
      "It lives in the ocean and is huge").features "aquatic" = 1 ∧
    getFeature (extract_features_from_description e
      "It lives in the ocean and is huge").features "large" = 1 ∧
    ∀ k, k ≠ "aquatic" → k ≠ "large" →
      getFeature (extract_features_from_description e
        "It lives in the ocean and is huge").features k = getFeature e.features k := by
  rw [extract_ocean_huge_eq]
  refine ⟨?_, ?_, ?_⟩
  · exact getFeature_setFeature_self _ "aquatic" 1
  · rw [getFeature_setFeature_ne _ "aquatic" "large" 1 (by decide)]
    exact getFeature_setFeature_self _ "large" 1
  · intro k hk1 hk2
    rw [getFeature_setFeature_ne _ "aquatic" k 1 hk1,
      getFeature_setFeature_ne _ "large" k 1 hk2]

/-- C9 witness: the extraction evaluated on a concrete entity. -/
theorem extract_ocean_huge_witness :
    getFeature (extract_features_from_description entDog
      "It lives in the ocean and is huge").features "aquatic" = 1 ∧
    getFeature (extract_features_from_description entDog
      "It lives in the ocean and is huge").features "large" = 1 ∧
    ∀ k, k ≠ "aquatic" → k ≠ "large" →
      getFeature (extract_features_from_description entDog
        "It lives in the ocean and is huge").features k = getFeature entDog.features k :=
  extract_ocean_huge entDog

/-- C10: after learning a name against an answer set (with empty description),
filtering with that same answer set keeps an entity carrying that name:
the learned entity is consistent with the answers it was taught. -/
theorem learn_filter_roundtrip (animals : List Entity) (actual : String)
    (answers : AnswerSet) (hnodup : (answers.map Prod.fst).Nodup)
    (hvals : ∀ fa ∈ answers, fa.2 = 0 ∨ fa.2 = 1) :
    ∃ e ∈ filter_candidates (learn_from_game animals actual answers "") answers,
      pyLower e.name = pyLower actual := by
  obtain ⟨e0, hmem, hname⟩ := learn_from_game_mem_updated animals actual answers ""
  refine ⟨updateLearned e0 answers "", ?_, ?_⟩
  · rw [mem_filter_candidates]
    refine ⟨hmem, ?_⟩
    intro fa hfa
    rw [consistentWith_iff]
    have hget : getFeature (updateLearned e0 answers "").features fa.1 = (fa.2 : ℚ) := by
      rw [updateLearned_empty_desc]
      exact getFeature_applyAnswers_mem e0.features answers fa.1 fa.2 hnodup
        (by simpa using hfa)
    rcases hvals fa hfa with h0 | h1
    · rw [hget, h0]
      norm_num
    · rw [hget, h1]
      norm_num
  · rw [updateLearned_name]
    exact hname

/-- C10 witness: the round trip on a concrete learning step. -/
theorem learn_filter_roundtrip_witness :
    ((([("aquatic", (1:ℤ))] : AnswerSet).map Prod.fst).Nodup) ∧
    (∀ fa ∈ ([("aquatic", (1:ℤ))] : AnswerSet), fa.2 = 0 ∨ fa.2 = 1) ∧
    ∃ e ∈ filter_candidates (learn_from_game [entA] "Whale" [("aquatic", 1)] "")
        [("aquatic", 1)],
      pyLower e.name = pyLower "Whale" :=
  ⟨by decide, by decide,
   learn_filter_roundtrip [entA] "Whale" [("aquatic", 1)] (by decide) (by decide)⟩


/-! ### Entropy of the yes/no split -/

theorem yesCount_le_length (candidates : List Entity) (feature : String) :
    yesCount candidates feature ≤ candidates.length :=
  List.countP_le_length _

theorem calculate_entropy_branch (candidates : List Entity) (feature : String)
    (h1 : 1 < candidates.length) (h2 : yesCount candidates feature ≠ 0)
    (h3 : yesCount candidates feature ≠ candidates.length) :
    calculate_entropy candidates feature =
      Real.binEntropy ((yesCount candidates feature : ℝ) / (candidates.length : ℝ)) /
        Real.log 2 := by
  unfold calculate_entropy
  rw [if_neg (by omega), if_neg (by tauto)]
  rw [Real.binEntropy_eq_negMulLog_add_negMulLog_one_sub]
  simp only [Real.negMulLog, Real.logb]
  ring

theorem calculate_entropy_pos (candidates : List Entity) (feature : String)
    (h1 : 1 < candidates.length) (h2 : yesCount candidates feature ≠ 0)
    (h3 : yesCount candidates feature ≠ candidates.length) :
    0 < calculate_entropy candidates feature := by
  rw [calculate_entropy_branch candidates feature h1 h2 h3]
  refine div_pos (Real.binEntropy_pos ?_ ?_) (Real.log_pos one_lt_two)
  · exact div_pos (by exact_mod_cast Nat.pos_of_ne_zero h2) (by positivity)
  · rw [div_lt_one (by positivity)]
    exact_mod_cast lt_of_le_of_ne (yesCount_le_length candidates feature) h3

theorem calculate_entropy_nonneg (candidates : List Entity) (feature : String) :
    0 ≤ calculate_entropy candidates feature := by
  by_cases h1 : candidates.length ≤ 1
  · unfold calculate_entropy
    rw [if_pos h1]
  · by_cases h2 : yesCount candidates feature = 0 ∨
        yesCount candidates feature = candidates.length
    · unfold calculate_entropy
      rw [if_neg h1, if_pos h2]
    · push_neg at h2
      exact (calculate_entropy_pos candidates feature (by omega) h2.1 h2.2).le

theorem calculate_entropy_eq_zero_iff (candidates : List Entity) (feature : String) :
    calculate_entropy candidates feature = 0 ↔
      candidates.length ≤ 1 ∨ yesCount candidates feature = 0 ∨
        yesCount candidates feature = candidates.length := by
  constructor
  · intro h
    by_contra hcon
    push_neg at hcon
    exact absurd h.symm
      (ne_of_lt (calculate_entropy_pos candidates feature (by omega) hcon.2.1 hcon.2.2))
  · intro h
    unfold calculate_entropy
    by_cases h1 : candidates.length ≤ 1
    · rw [if_pos h1]
    · rw [if_neg h1, if_pos (by tauto)]

/-- C4: `calculate_entropy` is 0 exactly when at most one candidate remains or
the yes/no split is degenerate; otherwise it equals the base-2 binary Shannon
entropy of the split fraction `p`, which is positive, at most 1, and equals 1
exactly when `p = 1/2`. -/
theorem calculate_entropy_contract (candidates : List Entity) (feature : String) :
    (calculate_entropy candidates feature = 0 ↔
      candidates.length ≤ 1 ∨ yesCount candidates feature = 0 ∨
        yesCount candidates feature = candidates.length) ∧
    (1 < candidates.length → yesCount candidates feature ≠ 0 →
      yesCount candidates feature ≠ candidates.length →
      calculate_entropy candidates feature =
        -(((yesCount candidates feature : ℝ) / (candidates.length : ℝ)) *
            Real.logb 2 ((yesCount candidates feature : ℝ) / (candidates.length : ℝ)) +
          (1 - (yesCount candidates feature : ℝ) / (candidates.length : ℝ)) *
            Real.logb 2
              (1 - (yesCount candidates feature : ℝ) / (candidates.length : ℝ))) ∧
      0 < calculate_entropy candidates feature ∧
      calculate_entropy candidates feature ≤ 1 ∧
      (calculate_entropy candidates feature = 1 ↔
        (yesCount candidates feature : ℝ) / (candidates.length : ℝ) = 1/2)) := by
  refine ⟨calculate_entropy_eq_zero_iff candidates feature, ?_⟩
  intro h1 h2 h3
  have hbr := calculate_entropy_branch candidates feature h1 h2 h3
  refine ⟨?_, calculate_entropy_pos candidates feature h1 h2 h3, ?_, ?_⟩
  · unfold calculate_entropy
    rw [if_neg (by omega), if_neg (by tauto)]
  · rw [hbr, div_le_one (Real.log_pos one_lt_two)]
    exact Real.binEntropy_le_log_two
  · rw [hbr, div_eq_one_iff_eq (ne_of_gt (Real.log_pos one_lt_two)),
      Real.binEntropy_eq_log_two, one_div]

/-- C4 witness: the entropy contract evaluated at a concrete candidate set. -/
theorem calculate_entropy_contract_witness :
    (calculate_entropy [entA, entDog] "mammal" = 0 ↔
      ([entA, entDog] : List Entity).length ≤ 1 ∨ yesCount [entA, entDog] "mammal" = 0 ∨
        yesCount [entA, entDog] "mammal" = ([entA, entDog] : List Entity).length) ∧
    (1 < ([entA, entDog] : List Entity).length → yesCount [entA, entDog] "mammal" ≠ 0 →
      yesCount [entA, entDog] "mammal" ≠ ([entA, entDog] : List Entity).length →
      calculate_entropy [entA, entDog] "mammal" =
        -(((yesCount [entA, entDog] "mammal" : ℝ) / (([entA, entDog] : List Entity).length : ℝ)) *
            Real.logb 2 ((yesCount [entA, entDog] "mammal" : ℝ) /
              (([entA, entDog] : List Entity).length : ℝ)) +
          (1 - (yesCount [entA, entDog] "mammal" : ℝ) /
              (([entA, entDog] : List Entity).length : ℝ)) *
            Real.logb 2 (1 - (yesCount [entA, entDog] "mammal" : ℝ) /
              (([entA, entDog] : List Entity).length : ℝ))) ∧
      0 < calculate_entropy [entA, entDog] "mammal" ∧
      calculate_entropy [entA, entDog] "mammal" ≤ 1 ∧
      (calculate_entropy [entA, entDog] "mammal" = 1 ↔
        (yesCount [entA, entDog] "mammal" : ℝ) /
          (([entA, entDog] : List Entity).length : ℝ) = 1/2)) :=
  calculate_entropy_contract [entA, entDog] "mammal"


/-! ### The question selector -/

theorem weightedGain_nonneg (candidates : List Entity) (q : Question)
    (hq : 0 < q.weight) : 0 ≤ weightedGain candidates q :=
  mul_nonneg (calculate_entropy_nonneg candidates q.feature)
    (by exact_mod_cast hq.le)

/-- C3: `get_best_question` returns `none` exactly when no unused question
exists or every unused question has weighted gain 0 (given the data-model
invariant that weights are positive); otherwise it returns the first question
in bank order attaining the strict maximum weighted gain (strict `>`
comparison: earlier questions win ties). -/
theorem get_best_question_contract (questions : List Question)
    (candidates : List Entity) (asked_features : List String)
    (hw : ∀ q ∈ questions, 0 < q.weight) :
    (get_best_question questions candidates asked_features = none ↔
      questions.filter (fun q => !asked_features.contains q.feature) = [] ∨
        ∀ q ∈ questions.filter (fun q => !asked_features.contains q.feature),
          weightedGain candidates q = 0) ∧
    (∀ q, get_best_question questions candidates asked_features = some q →
      ∃ l1 l2,
        questions.filter (fun q => !asked_features.contains q.feature) = l1 ++ q :: l2 ∧
        0 < weightedGain candidates q ∧
        (∀ p ∈ l1, weightedGain candidates p < weightedGain candidates q) ∧
        (∀ p ∈ l2, weightedGain candidates p ≤ weightedGain candidates q)) := by
  have hnn : ∀ q ∈ questions.filter (fun q => !asked_features.contains q.feature),
      0 ≤ weightedGain candidates q := fun q hq =>
    weightedGain_nonneg candidates q (hw q (List.mem_of_mem_filter hq))
  cases havail : questions.filter (fun q => !asked_features.contains q.feature) with
  | nil =>
    have hgb : get_best_question questions candidates asked_features = none := by
      simp only [get_best_question]
      rw [havail]
      rfl
    refine ⟨?_, ?_⟩
    · rw [hgb]
      simp
    · intro q hq
      rw [hgb] at hq
      cases hq
  | cons q0 rest =>
    rw [havail] at hnn
    have hgb : get_best_question questions candidates asked_features =
        (argmaxFold (weightedGain candidates) (q0 :: rest) (none, (0:ℝ))).1 := by
      simp only [get_best_question]
      rw [havail]
      rfl
    constructor
    · rw [hgb]
      constructor
      · intro hnone
        rcases argmaxFold_spec (weightedGain candidates) (q0 :: rest) (none, (0:ℝ)) with
          heq | ⟨l1, q, l2, hl, heq, hgt, hlt, hle⟩
        · right
          intro q hq
          have hub := argmaxFold_forall_le (weightedGain candidates) (q0 :: rest)
            (none, (0:ℝ)) q hq
          rw [heq] at hub
          exact le_antisymm hub (hnn q hq)
        · rw [heq] at hnone
          simp at hnone
      · intro h
        rcases h with h | h
        · exact (List.cons_ne_nil q0 rest h).elim
        · have hself : argmaxFold (weightedGain candidates) (q0 :: rest) (none, (0:ℝ)) =
              (none, (0:ℝ)) := by
            refine argmaxFold_eq_self _ _ _ ?_
            intro x hx
            exact le_of_eq (h x hx)
          rw [hself]
    · intro q hq
      rw [hgb] at hq
      rcases argmaxFold_spec (weightedGain candidates) (q0 :: rest) (none, (0:ℝ)) with
        heq | ⟨l1, q2, l2, hl, heq, hgt, hlt, hle⟩
      · rw [heq] at hq
        simp at hq
      · rw [heq] at hq
        obtain rfl : q2 = q := by simpa using hq
        exact ⟨l1, l2, hl, hgt, hlt, hle⟩

/-- C3 witness: the selector contract at a concrete question bank. -/
theorem get_best_question_contract_witness :
    (∀ q ∈ ([qMammal] : List Question), 0 < q.weight) ∧
    ((get_best_question [qMammal] [entA] [] = none ↔
      ([qMammal] : List Question).filter (fun q => !([] : List String).contains q.feature)
          = [] ∨
        ∀ q ∈ ([qMammal] : List Question).filter
            (fun q => !([] : List String).contains q.feature),
          weightedGain [entA] q = 0) ∧
    (∀ q, get_best_question [qMammal] [entA] [] = some q →
      ∃ l1 l2,
        ([qMammal] : List Question).filter (fun q => !([] : List String).contains q.feature)
            = l1 ++ q :: l2 ∧
        0 < weightedGain [entA] q ∧
        (∀ p ∈ l1, weightedGain [entA] p < weightedGain [entA] q) ∧
        (∀ p ∈ l2, weightedGain [entA] p ≤ weightedGain [entA] q))) :=
  ⟨by decide, get_best_question_contract [qMammal] [entA] [] (by decide)⟩

end AnimalGuesser
